import Mathlib

/-!
Verification of the ActionKV key-value store (src/src/lib.rs).

The development is a shallow embedding of the Rust source:

* Byte strings are `List Nat` (each element a byte value; every write masks
  with `% 256` exactly where the source truncates to fixed-width integers).
* The data file is opened with `O_APPEND` (read+write+create+append), so all
  writes land at end-of-file regardless of the cursor; the sidecar index file
  is opened without append, so writes overwrite in place at the cursor.
* `HashMap<ByteString, u64>` is modelled as an association list with
  insert-replaces / append-at-end semantics (`mapInsert`, `mapRemove`,
  `mapLookup`); `bincode` (de)serialization of the map is modelled
  byte-exactly (u64 little-endian count, then per entry u64 length, key
  bytes, u64 offset).
* `panic!` (the CRC-mismatch panic in `process_records`), `Vec::split_off`
  out-of-bounds, and `.unwrap()` on an `Err`/failed `bincode::deserialize`
  all halt the process; they are modelled by the distinguished outcomes
  `DecodeRes.halted` / `KVOut.halted`.  The only I/O error that can arise in
  the model is `io::ErrorKind::UnexpectedEof` (`DecodeRes.eofErr`,
  `KVOut.ioErr`); device-level I/O failures are outside the model.
* `BufReader` read-ahead: a positional read (`get_at`) leaves the underlying
  file cursor at `min (offset + 8192) fileLength` — the effect of one 8 KiB
  buffer fill, exact for records whose 12-byte header plus payload fits in a
  single fill (all records read positionally in this development).
-/

/-- Little-endian serialization of the low 32 bits of `x`
(`byteorder::WriteBytesExt::write_u32::<LittleEndian>`; a `usize as u32`
cast truncates, which the `% 256` of the high byte reproduces). -/
def w32 (x : Nat) : List Nat :=
  [x % 256, x / 256 % 256, x / 65536 % 256, x / 16777216 % 256]

/-- Little-endian serialization of the low 64 bits of `x`
(`bincode` writes lengths, counts and offsets as little-endian u64). -/
def w64 (x : Nat) : List Nat :=
  [x % 256, x / 256 % 256, x / 65536 % 256, x / 16777216 % 256,
   x / 4294967296 % 256, x / 1099511627776 % 256,
   x / 281474976710656 % 256, x / 72057594037927936 % 256]

/-- `read_u32::<LittleEndian>`: consume four bytes, little-endian; fewer
than four bytes remaining is `io::ErrorKind::UnexpectedEof` (`none`). -/
def readU32 : List Nat → Option (Nat × List Nat)
  | b0 :: b1 :: b2 :: b3 :: rest =>
      some (b0 + 256 * b1 + 65536 * b2 + 16777216 * b3, rest)
  | _ => none

/-- `read_u64::<LittleEndian>` as used by the bincode model. -/
def readU64 : List Nat → Option (Nat × List Nat)
  | b0 :: b1 :: b2 :: b3 :: b4 :: b5 :: b6 :: b7 :: rest =>
      some (b0 + 256 * b1 + 65536 * b2 + 16777216 * b3 + 4294967296 * b4 +
            1099511627776 * b5 + 281474976710656 * b6 +
            72057594037927936 * b7, rest)
  | _ => none

/-- The source's `let data_len = key_len + value_len;` is an addition of two
`u32` values: in a release build it wraps modulo `2^32`. -/
def u32add (a b : Nat) : Nat := (a + b) % 4294967296

/-- One shift-xor round of the reflected CRC-32/IEEE computation
(polynomial `0xEDB88320`). -/
def crcStep (c : Nat) : Nat :=
  if c % 2 = 1 then (c / 2) ^^^ 0xEDB88320 else c / 2

/-- Eight rounds of `crcStep` (one input byte). -/
def crc8 (c : Nat) : Nat :=
  crcStep (crcStep (crcStep (crcStep (crcStep (crcStep (crcStep (crcStep c)))))))

/-- Fold one byte into the running CRC state. -/
def crcByte (c b : Nat) : Nat := crc8 (c ^^^ (b % 256))

/-- `crc::crc32::checksum_ieee`: CRC-32/IEEE over a byte sequence
(initial value `0xFFFFFFFF`, final xor `0xFFFFFFFF`). -/
def crc32 (l : List Nat) : Nat :=
  (l.foldl crcByte 0xFFFFFFFF) ^^^ 0xFFFFFFFF

/-- The in-memory view of one record (`struct KeyValuePair`). -/
structure KVPair where
  key : List Nat
  value : List Nat
deriving DecidableEq, Repr

/-- Outcome of `ActionKV::process_records` on a byte stream:
a decoded pair together with the unread suffix of the stream, an
`UnexpectedEof` I/O error from one of the three `read_u32` calls, or a
process halt (`panic!` on checksum mismatch, or `Vec::split_off` with
`key_len` beyond the bytes actually read). -/
inductive DecodeRes where
  | ok : KVPair → List Nat → DecodeRes
  | eofErr : DecodeRes
  | halted : DecodeRes
deriving DecidableEq, Repr

/-- `ActionKV::process_records` (src/src/lib.rs lines 63-83): read checksum,
`key_len`, `value_len` (little-endian u32 each), then up to
`data_len = key_len + value_len` (u32 addition) payload bytes via
`take(data_len).read_to_end` (which returns short reads without error);
`panic!` if the recomputed CRC-32 differs from the stored checksum; finally
`split_off(key_len)` splits the payload into key and value (panicking when
`key_len` exceeds the payload actually read). -/
def processRecords (s : List Nat) : DecodeRes :=
  match readU32 s with
  | none => .eofErr
  | some (chk, s1) =>
    match readU32 s1 with
    | none => .eofErr
    | some (kl, s2) =>
      match readU32 s2 with
      | none => .eofErr
      | some (vl, s3) =>
        if crc32 (s3.take (u32add kl vl)) ≠ chk then .halted
        else if (s3.take (u32add kl vl)).length < kl then .halted
        else .ok ⟨(s3.take (u32add kl vl)).take kl,
                  (s3.take (u32add kl vl)).drop kl⟩
                 (s3.drop (u32add kl vl))

/-- The byte layout written by `ActionKV::insert_`:
`checksum_le32 || key_len_le32 || value_len_le32 || key || value` with
`checksum = CRC32_IEEE(key || value)`. -/
def encodeRecord (k v : List Nat) : List Nat :=
  w32 (crc32 (k ++ v)) ++ w32 k.length ++ w32 v.length ++ k ++ v

/-- The in-memory index: `HashMap<ByteString, u64>` as an association list. -/
def IndexMap : Type := List (List Nat × Nat)

instance : DecidableEq IndexMap := by unfold IndexMap; infer_instance

instance : Repr IndexMap := by unfold IndexMap; infer_instance

/-- `HashMap::get`. -/
def mapLookup : IndexMap → List Nat → Option Nat
  | [], _ => none
  | (k', v) :: t, k => if k' = k then some v else mapLookup t k

/-- `HashMap::insert` (replace an existing binding in place, otherwise add). -/
def mapInsert : IndexMap → List Nat → Nat → IndexMap
  | [], k, v => [(k, v)]
  | (k', v') :: t, k, v =>
      if k' = k then (k, v) :: t else (k', v') :: mapInsert t k v

/-- `HashMap::remove` (the source discards the returned value). -/
def mapRemove : IndexMap → List Nat → IndexMap
  | [], _ => []
  | (k', v') :: t, k => if k' = k then mapRemove t k else (k', v') :: mapRemove t k

/-- `bincode::serialize` of the entry list of a map. -/
def bincodeSerEntries : IndexMap → List Nat
  | [] => []
  | (k, off) :: t => w64 k.length ++ k ++ w64 off ++ bincodeSerEntries t

/-- `bincode::serialize` of a `HashMap<ByteString, u64>`: u64 entry count,
then per entry the u64 key length, the key bytes and the u64 offset. -/
def bincodeSer (m : IndexMap) : List Nat :=
  w64 m.length ++ bincodeSerEntries m

/-- `bincode::deserialize` of the entries (`n` of them); `none` on
malformed input (which the source turns into a panic via `.unwrap()`). -/
def bincodeDeserEntries : Nat → List Nat → Option IndexMap
  | 0, _ => some []
  | n + 1, s =>
    match readU64 s with
    | none => none
    | some (klen, s1) =>
      if klen ≤ s1.length then
        match readU64 (s1.drop klen) with
        | none => none
        | some (off, s3) =>
          match bincodeDeserEntries n s3 with
          | none => none
          | some m => some ((s1.take klen, off) :: m)
      else none

/-- `bincode::deserialize::<HashMap<ByteString, u64>>`. -/
def bincodeDeser (b : List Nat) : Option IndexMap :=
  match readU64 b with
  | none => none
  | some (n, s) => bincodeDeserEntries n s

/-- The reserved key `+index` (`const INDEX_KEY: &ByteStr = b"+index"`). -/
def INDEX_KEY : List Nat := [43, 105, 110, 100, 101, 120]

/-- Overwrite `b` into `file` starting at byte `pos` (write through a file
handle opened without `O_APPEND`); the file grows if needed. -/
def writeAt (file : List Nat) (pos : Nat) (b : List Nat) : List Nat :=
  file.take pos ++ b ++ file.drop (pos + b.length)

/-- `struct ActionKV`: the two file handles (contents plus cursor position)
and the in-memory index.  The `data` file is open with `O_APPEND`; the
sidecar `index` file is open without it. -/
structure AKVState where
  dataFile : List Nat
  dataCursor : Nat
  indexFile : List Nat
  indexCursor : Nat
  index : IndexMap
deriving DecidableEq, Repr

/-- `ActionKV::open` on a fresh directory: both files empty, cursors at 0,
empty in-memory index. -/
def initState : AKVState :=
  { dataFile := [], dataCursor := 0, indexFile := [], indexCursor := 0,
    index := [] }

/-- Re-running `ActionKV::open` on an existing directory after a clean
close: file contents survive, cursors restart at 0, the index is empty. -/
def reopen (s : AKVState) : AKVState :=
  { s with dataCursor := 0, indexCursor := 0, index := [] }

namespace ActionKV

/-- `ActionKV::insert_` (lines 91-118).  `current_position` is the file
cursor observed by `seek(SeekFrom::Current(0))` *before* any write.  With
`saving_index == false` the record is appended to the `data` file (the
handle has `O_APPEND`, so the bytes land at end-of-file and the cursor ends
at the new end); the recorded position is the pre-existing cursor.  With
`saving_index == true` the record overwrites the sidecar `index` file from
offset 0 and the recorded position is 0. -/
def insert_ (s : AKVState) (key value : List Nat) (savingIndex : Bool) :
    AKVState :=
  let r := encodeRecord key value
  if savingIndex then
    { s with indexFile := writeAt s.indexFile 0 r,
             indexCursor := r.length,
             index := mapInsert s.index key 0 }
  else
    { s with dataFile := s.dataFile ++ r,
             dataCursor := s.dataFile.length + r.length,
             index := mapInsert s.index key s.dataCursor }

/-- `ActionKV::store_index_on_disk` (lines 84-90): drop `+index` from the
map, serialize the rest, reset the in-memory map to empty, then write the
serialization as a record under `+index` to the sidecar file. -/
def store_index_on_disk (s : AKVState) : AKVState :=
  insert_ { s with index := [] } INDEX_KEY
    (bincodeSer (mapRemove s.index INDEX_KEY)) true

/-- `ActionKV::insert` (lines 147-152): append the record, then persist the
index.  There is no reserved-key check; the operation succeeds for every
key, including `+index`. -/
def insert (s : AKVState) (key value : List Nat) : AKVState :=
  store_index_on_disk (insert_ s key value false)

/-- `ActionKV::update` (lines 199-203): identical to `insert`. -/
def update (s : AKVState) (key value : List Nat) : AKVState :=
  insert s key value

/-- `ActionKV::delete` (lines 192-198): insert a tombstone (empty value),
then remove the key from the in-memory index (which `insert` has just reset
to the singleton `+index ↦ 0`, so the removal only has an effect for
`key = +index`). -/
def delete (s : AKVState) (key : List Nat) : AKVState :=
  let s' := insert s key []
  { s' with index := mapRemove s'.index key }

/-- `ActionKV::get_at` (lines 119-127): seek to `i` in the chosen file and
decode one record.  The returned state records the `BufReader` read-ahead:
the underlying cursor ends at `min (i + 8192) fileLength` (one 8 KiB fill;
exact whenever the record fits in a single fill). -/
def get_at (s : AKVState) (i : Nat) (getIndex : Bool) :
    DecodeRes × AKVState :=
  if getIndex then
    (processRecords (s.indexFile.drop i),
     { s with indexCursor := min (i + 8192) s.indexFile.length })
  else
    (processRecords (s.dataFile.drop i),
     { s with dataCursor := min (i + 8192) s.dataFile.length })

/-- Possible outcomes of a public read operation: success with a result and
the post-state, a surfaced I/O error (`UnexpectedEof`), or a process halt
(CRC panic, `.unwrap()` on an `Err`, or a failed `bincode` deserialize). -/
inductive KVOut (α : Type) where
  | ok : α → AKVState → KVOut α
  | ioErr : KVOut α
  | halted : KVOut α
deriving DecidableEq, Repr

/-- Second half of `ActionKV::get` (lines 161-167): look the key up in the
(re)loaded map and positionally read its record from the data file.  The
source calls `.unwrap()` on the `get_at` result, so an `Err` there halts
the process, as does a CRC panic inside the decode. -/
def getStep2 (s : AKVState) (key : List Nat) : KVOut (Option (List Nat)) :=
  match mapLookup s.index key with
  | some i =>
    match get_at s i false with
    | (.ok kv _, s2) => .ok (some kv.value) s2
    | _ => .halted
  | none => .ok none s

/-- `ActionKV::get` (lines 153-168): if the in-memory map binds `+index`,
read the sidecar record at that offset and replace the map with its
deserialized value (`?` propagates an I/O error; `.unwrap()` on the
deserialization halts); then resolve the key. -/
def get (s : AKVState) (key : List Nat) : KVOut (Option (List Nat)) :=
  match mapLookup s.index INDEX_KEY with
  | some i =>
    match get_at s i true with
    | (.ok kv _, s1) =>
      match bincodeDeser kv.value with
      | some m => getStep2 { s1 with index := m } key
      | none => .halted
    | (.eofErr, _) => .ioErr
    | (.halted, _) => .halted
  | none => getStep2 s key

/-- The scan loop of `ActionKV::find` (lines 174-189): decode records
sequentially, remembering the offset and value of the last record whose key
matches; `UnexpectedEof` terminates the scan normally, a CRC panic halts
(`none`).  `pos` is the `seek(SeekFrom::Current(0))` position at the start
of the current record.  The loop is executed with explicit fuel; every
successful decode consumes at least the 12-byte header from the stream, so
the `stream.length + 1` units supplied by `find` always reach the
`UnexpectedEof` case before the fuel does (the fuel-exhaustion branch is
unreachable). -/
def findAuxF (k : List Nat) : Nat → List Nat → Nat →
    Option (Nat × List Nat) → Option (Option (Nat × List Nat))
  | 0, _, _, _ => none
  | fuel + 1, stream, pos, acc =>
    match processRecords stream with
    | .eofErr => some acc
    | .halted => none
    | .ok kv rest =>
      findAuxF k fuel rest (pos + (stream.length - rest.length))
        (if kv.key = k then some (pos, kv.value) else acc)

/-- The `find` scan loop, with its (always sufficient) fuel supplied. -/
def findAux (k stream : List Nat) (pos : Nat)
    (acc : Option (Nat × List Nat)) : Option (Option (Nat × List Nat)) :=
  findAuxF k (stream.length + 1) stream pos acc

/-- `ActionKV::find` (lines 169-191): linear scan of the data file from
offset 0.  The scan reads the file to its end, which is where the
underlying cursor is left. -/
def find (s : AKVState) (key : List Nat) :
    KVOut (Option (Nat × List Nat)) :=
  match findAux key s.dataFile 0 none with
  | some acc => .ok acc { s with dataCursor := s.dataFile.length }
  | none => .halted

/-- The loop of `ActionKV::load` (lines 131-144): decode records from the
sidecar stream; each record's value replaces the in-memory map via
`bincode::deserialize(...).unwrap()` (halting on failure, `none`);
`UnexpectedEof` ends the loop with the last map.  Fuel as in `findAuxF`. -/
def loadAuxF : Nat → List Nat → IndexMap → Option IndexMap
  | 0, _, _ => none
  | fuel + 1, stream, m =>
    match processRecords stream with
    | .eofErr => some m
    | .halted => none
    | .ok kv rest =>
      match bincodeDeser kv.value with
      | some m' => loadAuxF fuel rest m'
      | none => none

/-- The `load` loop, with its (always sufficient) fuel supplied. -/
def loadAux (stream : List Nat) (m : IndexMap) : Option IndexMap :=
  loadAuxF (stream.length + 1) stream m

/-- `ActionKV::load` (lines 128-146): scan the sidecar index file from the
current cursor; the last successfully decoded record's value becomes the
in-memory index. -/
def load (s : AKVState) : KVOut Unit :=
  match loadAux (s.indexFile.drop s.indexCursor) s.index with
  | some m => .ok () { s with index := m, indexCursor := s.indexFile.length }
  | none => .halted

/-- Extract the result of a successful operation. -/
def KVOut.val? {α : Type} : KVOut α → Option α
  | .ok a _ => some a
  | _ => none

/-- Extract the post-state of a successful operation. -/
def KVOut.st? {α : Type} : KVOut α → Option AKVState
  | .ok _ s => some s
  | _ => none

/-- Did the operation halt the process? -/
def KVOut.isHalted {α : Type} : KVOut α → Bool
  | .halted => true
  | _ => false

end ActionKV

/-- Concatenation of the records `insert` appends to the data log for one
key and a list of successive values. -/
def logOf (k : List Nat) (vs : List (List Nat)) : List Nat :=
  vs.foldr (fun v acc => encodeRecord k v ++ acc) []

/-- Offset of the last record in `logOf k vs` (the byte length of all
records before it). -/
def offLast (k : List Nat) (vs : List (List Nat)) : Nat :=
  (logOf k vs.dropLast).length

/-- The engine state after `open; load` on a fresh directory followed by
one `insert k v` per element of `vs` (`vs ≠ []`, `k ≠ +index`): all records
in the data log, cursor at end-of-file, the sidecar holding exactly the
serialization of the singleton map `k ↦ offset of the last record`, and the
in-memory map reset to `+index ↦ 0`. -/
def midState (k : List Nat) (vs : List (List Nat)) : AKVState :=
  { dataFile := logOf k vs,
    dataCursor := (logOf k vs).length,
    indexFile := encodeRecord INDEX_KEY (bincodeSer [(k, offLast k vs)]),
    indexCursor := (encodeRecord INDEX_KEY (bincodeSer [(k, offLast k vs)])).length,
    index := [(INDEX_KEY, 0)] }

/-- Fold a sequence of `insert` calls with the same key. -/
def insertList (s : AKVState) (k : List Nat) (vs : List (List Nat)) :
    AKVState :=
  vs.foldl (fun s v => ActionKV.insert s k v) s

/-- One public API call, for describing concrete scenarios. -/
inductive Op where
  | ins : List Nat → List Nat → Op
  | upd : List Nat → List Nat → Op
  | del : List Nat → Op
  | getq : List Nat → Op
  | findq : List Nat → Op
  | loadq : Op
deriving DecidableEq, Repr

/-- Execute one call; `none` when the call surfaces an error or halts. -/
def runOp (s : AKVState) : Op → Option AKVState
  | .ins k v => some (ActionKV.insert s k v)
  | .upd k v => some (ActionKV.update s k v)
  | .del k => some (ActionKV.delete s k)
  | .getq k => (ActionKV.get s k).st?
  | .findq k => (ActionKV.find s k).st?
  | .loadq => (ActionKV.load s).st?

/-- Execute a sequence of calls. -/
def runOps : AKVState → List Op → Option AKVState
  | s, [] => some s
  | s, op :: t =>
    match runOp s op with
    | some s' => runOps s' t
    | none => none

/-- The mapping persisted for `k` in the sidecar index file (decode the
record at offset 0 and look `k` up in its deserialized value). -/
def sidecarLookup (s : AKVState) (k : List Nat) : Option Nat :=
  match processRecords s.indexFile with
  | .ok kv _ =>
    match bincodeDeser kv.value with
    | some m => mapLookup m k
    | none => none
  | _ => none

/-- Does the file consist of exactly one well-formed record starting at
offset 0 and ending at end-of-file? -/
def holdsExactlyOneRecord (file : List Nat) : Bool :=
  match processRecords file with
  | .ok _ rest => rest.isEmpty
  | _ => false

/-! The concrete scenario used for claim C5: a public-API call sequence on
a fresh store whose third call (`get`) leaves the data-file cursor at 8192
(one `BufReader` fill) while end-of-file is at 9027, so the next `insert`
records offset 8192 in the index although its record is appended at 9027. -/

/-- The 9000-byte value that makes the data file exceed one 8 KiB
`BufReader` fill. -/
def c5big : List Nat := List.replicate 9000 97

/-- State after `insert([107], [118])` on a fresh store. -/
def c5S1 : AKVState :=
  { dataFile := encodeRecord [107] [118], dataCursor := 14,
    indexFile := encodeRecord INDEX_KEY (bincodeSer [([107], 0)]),
    indexCursor := 43, index := [(INDEX_KEY, 0)] }

/-- State after the subsequent `get([107])` (the in-memory map now holds
the reloaded user mapping). -/
def c5S2 : AKVState :=
  { dataFile := encodeRecord [107] [118], dataCursor := 14,
    indexFile := encodeRecord INDEX_KEY (bincodeSer [([107], 0)]),
    indexCursor := 43, index := [([107], 0)] }

/-- The two-entry map persisted by `insert([108], c5big)`. -/
def c5m2 : IndexMap := [([107], 0), ([108], 14)]

/-- State after `insert([108], c5big)`: the data file is 9027 bytes long
and the cursor sits at end-of-file. -/
def c5S3 : AKVState :=
  { dataFile := encodeRecord [107] [118] ++ encodeRecord [108] c5big,
    dataCursor := 9027,
    indexFile := encodeRecord INDEX_KEY (bincodeSer c5m2),
    indexCursor := 60, index := [(INDEX_KEY, 0)] }

/-- State after the second `get([107])`: the record at offset 0 fits in one
8 KiB `BufReader` fill, so the underlying data-file cursor is left at
`min (0 + 8192) 9027 = 8192`, below end-of-file. -/
def c5S4 : AKVState :=
  { dataFile := encodeRecord [107] [118] ++ encodeRecord [108] c5big,
    dataCursor := 8192,
    indexFile := encodeRecord INDEX_KEY (bincodeSer c5m2),
    indexCursor := 60, index := c5m2 }

/-- The three-entry map persisted by the final `insert([109], [119])`,
binding `[109]` to the stale cursor position 8192. -/
def c5m3 : IndexMap := [([107], 0), ([108], 14), ([109], 8192)]

/-! ### Codec-level lemmas -/

theorem readU32_w32 (x : Nat) (r : List Nat) :
    readU32 (w32 x ++ r) = some (x % 4294967296, r) := by
  simp only [w32, List.cons_append, List.nil_append, readU32,
    Option.some.injEq, Prod.mk.injEq]
  exact ⟨by omega, trivial⟩

theorem readU64_w64 (x : Nat) (r : List Nat) :
    readU64 (w64 x ++ r) = some (x % 18446744073709551616, r) := by
  simp only [w64, List.cons_append, List.nil_append, readU64,
    Option.some.injEq, Prod.mk.injEq]
  exact ⟨by omega, trivial⟩

theorem w32_length (x : Nat) : (w32 x).length = 4 := rfl

theorem w64_length (x : Nat) : (w64 x).length = 8 := rfl

theorem crcStep_lt (c : Nat) (h : c < 4294967296) : crcStep c < 4294967296 := by
  unfold crcStep
  split
  · exact Nat.xor_lt_two_pow (n := 32) (by omega) (by norm_num)
  · omega

theorem crc8_lt (c : Nat) (h : c < 4294967296) : crc8 c < 4294967296 := by
  unfold crc8
  iterate 8 apply crcStep_lt
  exact h

theorem crcByte_lt (c b : Nat) (h : c < 4294967296) :
    crcByte c b < 4294967296 := by
  unfold crcByte
  apply crc8_lt
  exact Nat.xor_lt_two_pow (n := 32) h (by omega)

theorem crc32_lt (l : List Nat) : crc32 l < 4294967296 := by
  unfold crc32
  apply Nat.xor_lt_two_pow (n := 32) _ (by norm_num)
  have : ∀ (l : List Nat) (c : Nat), c < 4294967296 →
      l.foldl crcByte c < 4294967296 := by
    intro l
    induction l with
    | nil => intro c hc; simpa using hc
    | cons b t ih =>
      intro c hc
      exact ih _ (crcByte_lt _ _ hc)
  exact this l _ (by norm_num)

theorem encodeRecord_length (k v : List Nat) :
    (encodeRecord k v).length = 12 + k.length + v.length := by
  simp [encodeRecord, w32]
  omega

/-- Decoding a well-formed record from the head of a stream succeeds and
consumes exactly the record. -/
theorem processRecords_append (k v rest : List Nat)
    (h : k.length + v.length < 4294967296) :
    processRecords (encodeRecord k v ++ rest) = .ok ⟨k, v⟩ rest := by
  have hk : k.length < 4294967296 := by omega
  have hv : v.length < 4294967296 := by omega
  have hc := crc32_lt (k ++ v)
  have hadd : u32add k.length v.length = k.length + v.length := by
    unfold u32add
    omega
  have htake : (k ++ (v ++ rest)).take (k.length + v.length) = k ++ v := by
    rw [← List.append_assoc]
    exact List.take_left' (by simp)
  have hdrop : (k ++ (v ++ rest)).drop (k.length + v.length) = rest := by
    rw [← List.append_assoc]
    exact List.drop_left' (by simp)
  unfold processRecords encodeRecord
  simp only [List.append_assoc, readU32_w32, Nat.mod_eq_of_lt hc,
    Nat.mod_eq_of_lt hk, Nat.mod_eq_of_lt hv, hadd, htake, hdrop]
  rw [if_neg (by simp), if_neg (by simp [List.take_left])]
  simp [List.take_left, List.drop_left]

theorem processRecords_nil : processRecords [] = .eofErr := rfl

/-! ### bincode and state-shape lemmas -/

theorem bincodeDeser_ser_nil : bincodeDeser (bincodeSer []) = some [] := rfl

theorem bincodeDeser_ser_singleton (k : List Nat) (off : Nat)
    (hk : k.length < 18446744073709551616)
    (hoff : off < 18446744073709551616) :
    bincodeDeser (bincodeSer [(k, off)]) = some [(k, off)] := by
  have h1 : bincodeSer [(k, off)] =
      w64 1 ++ (w64 k.length ++ (k ++ (w64 off ++ []))) := by
    simp [bincodeSer, bincodeSerEntries]
  have hdrop : (k ++ (w64 off ++ [])).drop k.length = w64 off ++ [] :=
    List.drop_left' rfl
  have htake : (k ++ (w64 off ++ [])).take k.length = k :=
    List.take_left' rfl
  rw [h1]
  unfold bincodeDeser
  rw [readU64_w64]
  simp only [Nat.mod_eq_of_lt (show 1 < 18446744073709551616 by norm_num)]
  unfold bincodeDeserEntries
  rw [readU64_w64]
  simp only [Nat.mod_eq_of_lt hk]
  rw [if_pos (by simp)]
  rw [hdrop, readU64_w64]
  simp only [Nat.mod_eq_of_lt hoff]
  unfold bincodeDeserEntries
  rw [htake]

theorem writeAt_zero_of_le (old b : List Nat) (h : old.length ≤ b.length) :
    writeAt old 0 b = b := by
  unfold writeAt
  simp [List.drop_eq_nil_of_le, h]

/-- The full effect of one `ActionKV::insert` call on the state. -/
theorem insert_eq (s : AKVState) (k v : List Nat) :
    ActionKV.insert s k v =
      { dataFile := s.dataFile ++ encodeRecord k v,
        dataCursor := s.dataFile.length + (encodeRecord k v).length,
        indexFile := writeAt s.indexFile 0 (encodeRecord INDEX_KEY
          (bincodeSer (mapRemove (mapInsert s.index k s.dataCursor) INDEX_KEY))),
        indexCursor := (encodeRecord INDEX_KEY
          (bincodeSer (mapRemove (mapInsert s.index k s.dataCursor) INDEX_KEY))).length,
        index := [(INDEX_KEY, 0)] } := rfl

/-- Generic successful-`get` lemma: when the in-memory map points at a
decodable sidecar record whose value deserializes to `m`, and `m` points at
a decodable data record, `get` returns that record's value and leaves the
two read-ahead cursors behind. -/
theorem get_ok (s : AKVState) (k : List Nat) (i : Nat) (kv1 : KVPair)
    (r1 : List Nat) (m : IndexMap) (off : Nat) (kv2 : KVPair) (r2 : List Nat)
    (h1 : mapLookup s.index INDEX_KEY = some i)
    (h2 : processRecords (s.indexFile.drop i) = .ok kv1 r1)
    (h3 : bincodeDeser kv1.value = some m)
    (h4 : mapLookup m k = some off)
    (h5 : processRecords (s.dataFile.drop off) = .ok kv2 r2) :
    ActionKV.get s k = .ok (some kv2.value)
      { s with index := m,
               indexCursor := min (i + 8192) s.indexFile.length,
               dataCursor := min (off + 8192) s.dataFile.length } := by
  unfold ActionKV.get ActionKV.getStep2 ActionKV.get_at
  simp only [h1, h2, h3, h4, h5, Bool.false_eq_true, if_true, if_false]

/-! ### Log-of-inserts lemmas -/

theorem logOf_nil (k : List Nat) : logOf k [] = [] := rfl

theorem logOf_cons (k v : List Nat) (t : List (List Nat)) :
    logOf k (v :: t) = encodeRecord k v ++ logOf k t := rfl

theorem logOf_append (k : List Nat) (a b : List (List Nat)) :
    logOf k (a ++ b) = logOf k a ++ logOf k b := by
  induction a with
  | nil => simp [logOf]
  | cons v t ih => simp [logOf_cons, ih, List.cons_append, List.append_assoc]

theorem bincodeSer_singleton_length (k : List Nat) (off : Nat) :
    (bincodeSer [(k, off)]).length = 24 + k.length := by
  simp [bincodeSer, bincodeSerEntries, w64]
  omega

theorem INDEX_KEY_length : INDEX_KEY.length = 6 := rfl

/-- One `insert` on a fresh (just opened and loaded) store. -/
theorem insert_initState (k v : List Nat) (hk : k ≠ INDEX_KEY) :
    ActionKV.insert initState k v = midState k [v] := by
  rw [insert_eq]
  unfold midState initState offLast
  simp [logOf_cons, logOf_nil, mapInsert, mapRemove, writeAt, hk]

/-- One further `insert` of the same key on the state reached by previous
inserts of that key. -/
theorem insert_midState (k v : List Nat) (vs : List (List Nat))
    (hk : k ≠ INDEX_KEY) :
    ActionKV.insert (midState k vs) k v = midState k (vs ++ [v]) := by
  rw [insert_eq]
  have hrm : mapRemove (mapInsert [(INDEX_KEY, 0)] k (logOf k vs).length)
      INDEX_KEY = [(k, (logOf k vs).length)] := by
    simp [mapInsert, mapRemove, hk, (Ne.symm hk)]
  have hlen : (encodeRecord INDEX_KEY
        (bincodeSer [(k, offLast k vs)])).length =
      (encodeRecord INDEX_KEY
        (bincodeSer [(k, (logOf k vs).length)])).length := by
    simp [encodeRecord_length, bincodeSer_singleton_length]
  have hwr : writeAt (encodeRecord INDEX_KEY (bincodeSer [(k, offLast k vs)])) 0
      (encodeRecord INDEX_KEY (bincodeSer [(k, (logOf k vs).length)])) =
      encodeRecord INDEX_KEY (bincodeSer [(k, (logOf k vs).length)]) :=
    writeAt_zero_of_le _ _ (le_of_eq hlen)
  have hoff2 : offLast k (vs ++ [v]) = (logOf k vs).length := by
    unfold offLast
    rw [List.dropLast_concat]
  unfold midState
  simp only [hrm, hwr, hoff2, logOf_append, logOf_cons, logOf_nil,
    List.append_nil, List.length_append, AKVState.mk.injEq]

/-- Folding a nonempty sequence of same-key inserts over a fresh store
yields exactly `midState`. -/
theorem insertList_midState (k : List Nat) (hk : k ≠ INDEX_KEY) :
    ∀ (vs done : List (List Nat)), done ≠ [] →
      insertList (midState k done) k vs = midState k (done ++ vs) := by
  intro vs
  induction vs with
  | nil => intro done hd; simp [insertList]
  | cons v t ih =>
    intro done hd
    have h1 : insertList (midState k done) k (v :: t) =
        insertList (ActionKV.insert (midState k done) k v) k t := rfl
    rw [h1, insert_midState k v done hk, ih (done ++ [v]) (by simp)]
    simp

theorem insertList_initState (k v : List Nat) (t : List (List Nat))
    (hk : k ≠ INDEX_KEY) :
    insertList initState k (v :: t) = midState k (v :: t) := by
  have h1 : insertList initState k (v :: t) =
      insertList (ActionKV.insert initState k v) k t := rfl
  rw [h1, insert_initState k v hk, insertList_midState k hk t [v] (by simp)]
  rfl

/-! ### Scan lemmas -/

theorem readU32_length {u : List Nat} {x : Nat} {r : List Nat}
    (hu : readU32 u = some (x, r)) : u.length = r.length + 4 := by
  rcases u with _ | ⟨a, u⟩
  · simp [readU32] at hu
  rcases u with _ | ⟨b, u⟩
  · simp [readU32] at hu
  rcases u with _ | ⟨c, u⟩
  · simp [readU32] at hu
  rcases u with _ | ⟨d, u⟩
  · simp [readU32] at hu
  simp only [readU32, Option.some.injEq, Prod.mk.injEq] at hu
  rw [← hu.2]
  simp only [List.length_cons]

/-- A successful decode consumes at least the 12-byte header. -/
theorem processRecords_rest_lt {s : List Nat} {kv : KVPair} {rest : List Nat}
    (h : processRecords s = .ok kv rest) : rest.length < s.length := by
  unfold processRecords at h
  split at h
  · cases h
  rename_i chk s1 h0
  split at h
  · cases h
  rename_i kl s2 h1
  split at h
  · cases h
  rename_i vl s3 h2
  split at h
  · cases h
  split at h
  · cases h
  injection h with hkv hrest
  have e0 := readU32_length h0
  have e1 := readU32_length h1
  have e2 := readU32_length h2
  have hr : rest.length ≤ s3.length := by
    rw [← hrest]
    simp only [List.length_drop]
    omega
  omega

/-- The scan result does not depend on the fuel, as long as the fuel
exceeds the stream length. -/
theorem findAuxF_fuel (k : List Nat) :
    ∀ f1 : Nat, ∀ (s : List Nat) (f2 pos : Nat)
      (acc : Option (Nat × List Nat)), s.length < f1 → s.length < f2 →
      ActionKV.findAuxF k f1 s pos acc = ActionKV.findAuxF k f2 s pos acc := by
  intro f1
  induction f1 with
  | zero => intro s f2 pos acc h1 h2; omega
  | succ n ih =>
    intro s f2 pos acc h1 h2
    cases f2 with
    | zero => omega
    | succ m =>
      cases h : processRecords s with
      | eofErr => simp [ActionKV.findAuxF, h]
      | halted => simp [ActionKV.findAuxF, h]
      | ok kv rest =>
        have hlt := processRecords_rest_lt h
        simp only [ActionKV.findAuxF, h]
        exact ih rest m _ _ (by omega) (by omega)

theorem loadAuxF_fuel :
    ∀ f1 : Nat, ∀ (s : List Nat) (f2 : Nat) (m : IndexMap),
      s.length < f1 → s.length < f2 →
      ActionKV.loadAuxF f1 s m = ActionKV.loadAuxF f2 s m := by
  intro f1
  induction f1 with
  | zero => intro s f2 m h1 h2; omega
  | succ n ih =>
    intro s f2 m h1 h2
    cases f2 with
    | zero => omega
    | succ m2 =>
      cases h : processRecords s with
      | eofErr => simp [ActionKV.loadAuxF, h]
      | halted => simp [ActionKV.loadAuxF, h]
      | ok kv rest =>
        have hlt := processRecords_rest_lt h
        simp only [ActionKV.loadAuxF, h]
        cases bincodeDeser kv.value with
        | none => rfl
        | some m' => exact ih rest m2 m' (by omega) (by omega)

theorem findAux_eofErr {stream : List Nat}
    (h : processRecords stream = .eofErr) (k : List Nat) (pos : Nat)
    (acc : Option (Nat × List Nat)) :
    ActionKV.findAux k stream pos acc = some acc := by
  unfold ActionKV.findAux
  simp [ActionKV.findAuxF, h]

theorem findAux_ok {stream : List Nat} {kv : KVPair} {rest : List Nat}
    (h : processRecords stream = .ok kv rest) (k : List Nat) (pos : Nat)
    (acc : Option (Nat × List Nat)) :
    ActionKV.findAux k stream pos acc =
      ActionKV.findAux k rest (pos + (stream.length - rest.length))
        (if kv.key = k then some (pos, kv.value) else acc) := by
  have hlt := processRecords_rest_lt h
  have h1 : ActionKV.findAux k stream pos acc =
      ActionKV.findAuxF k stream.length rest
        (pos + (stream.length - rest.length))
        (if kv.key = k then some (pos, kv.value) else acc) := by
    unfold ActionKV.findAux
    simp only [ActionKV.findAuxF, h]
  rw [h1]
  unfold ActionKV.findAux
  exact findAuxF_fuel k stream.length rest (rest.length + 1) _ _ hlt (by omega)

theorem loadAux_eofErr {stream : List Nat}
    (h : processRecords stream = .eofErr) (m : IndexMap) :
    ActionKV.loadAux stream m = some m := by
  unfold ActionKV.loadAux
  simp [ActionKV.loadAuxF, h]

theorem loadAux_ok {stream : List Nat} {kv : KVPair} {rest : List Nat}
    (h : processRecords stream = .ok kv rest) (m : IndexMap) :
    ActionKV.loadAux stream m =
      (match bincodeDeser kv.value with
       | some m' => ActionKV.loadAux rest m'
       | none => none) := by
  have hlt := processRecords_rest_lt h
  have h1 : ActionKV.loadAux stream m =
      (match bincodeDeser kv.value with
       | some m' => ActionKV.loadAuxF stream.length rest m'
       | none => none) := by
    unfold ActionKV.loadAux
    simp only [ActionKV.loadAuxF, h]
  rw [h1]
  unfold ActionKV.loadAux
  cases bincodeDeser kv.value with
  | none => rfl
  | some m' =>
    exact loadAuxF_fuel stream.length rest (rest.length + 1) m' hlt (by omega)

/-- Scanning the log of a nonempty same-key insert sequence finds the last
record, at the offset of the last record. -/
theorem findAux_logOf (k : List Nat) :
    ∀ (vs : List (List Nat)) (hvs : vs ≠ [])
      (hsz : ∀ v ∈ vs, k.length + v.length < 4294967296)
      (pos : Nat) (acc : Option (Nat × List Nat)),
      ActionKV.findAux k (logOf k vs) pos acc =
        some (some (pos + offLast k vs, vs.getLast hvs)) := by
  intro vs
  induction vs with
  | nil => intro hvs; cases hvs rfl
  | cons v t ih =>
    intro hvs hsz pos acc
    have hv : k.length + v.length < 4294967296 := hsz v (by simp)
    have hstep : processRecords (logOf k (v :: t)) = .ok ⟨k, v⟩ (logOf k t) := by
      rw [logOf_cons]
      exact processRecords_append _ _ _ hv
    rw [findAux_ok hstep]
    match t with
    | [] =>
      rw [findAux_eofErr (by rfl)]
      simp [offLast, logOf_nil]
    | w :: t' =>
      rw [ih (by simp) (fun x hx => hsz x (by simp [hx])) _ _]
      have hlen : (logOf k (v :: w :: t')).length - (logOf k (w :: t')).length =
          (encodeRecord k v).length := by
        rw [logOf_cons]
        simp
      have hoff : offLast k (v :: w :: t') =
          (encodeRecord k v).length + offLast k (w :: t') := by
        unfold offLast
        have : (v :: w :: t').dropLast = v :: (w :: t').dropLast := rfl
        rw [this, logOf_cons]
        simp
      have hgl : (v :: w :: t').getLast (by simp) = (w :: t').getLast (by simp) :=
        List.getLast_cons _
      simp [hlen, hoff, hgl]
      omega

/-- `get` after a nonempty same-key insert sequence returns the last value. -/
theorem get_midState (k : List Nat) (vs : List (List Nat)) (hvs : vs ≠ [])
    (hk30 : k.length + 30 < 4294967296)
    (hlast : k.length + (vs.getLast hvs).length < 4294967296)
    (hoff : offLast k vs < 18446744073709551616)
    (hklen : k.length < 18446744073709551616) :
    ∃ s', ActionKV.get (midState k vs) k = .ok (some (vs.getLast hvs)) s' := by
  refine ⟨_, get_ok (midState k vs) k 0 ⟨INDEX_KEY, bincodeSer [(k, offLast k vs)]⟩
    [] [(k, offLast k vs)] (offLast k vs) ⟨k, vs.getLast hvs⟩ [] rfl ?_ ?_ ?_ ?_⟩
  · show processRecords ((midState k vs).indexFile.drop 0) = _
    rw [List.drop_zero]
    show processRecords (encodeRecord INDEX_KEY (bincodeSer [(k, offLast k vs)])) = _
    rw [← List.append_nil (encodeRecord INDEX_KEY (bincodeSer [(k, offLast k vs)]))]
    apply processRecords_append
    rw [INDEX_KEY_length, bincodeSer_singleton_length]
    omega
  · exact bincodeDeser_ser_singleton k (offLast k vs) hklen hoff
  · simp [mapLookup]
  · show processRecords ((logOf k vs).drop (offLast k vs)) = _
    have hv2 : logOf k vs =
        logOf k vs.dropLast ++ (encodeRecord k (vs.getLast hvs) ++ []) := by
      conv_lhs => rw [← List.dropLast_append_getLast hvs]
      rw [logOf_append]
      rfl
    rw [hv2, List.drop_left' (by rfl)]
    exact processRecords_append _ _ _ hlast

/-- `find` after a nonempty same-key insert sequence returns the offset and
value of the last record. -/
theorem find_midState (k : List Nat) (vs : List (List Nat)) (hvs : vs ≠ [])
    (hsz : ∀ v ∈ vs, k.length + v.length < 4294967296) :
    ActionKV.find (midState k vs) k =
      .ok (some (offLast k vs, vs.getLast hvs)) (midState k vs) := by
  unfold ActionKV.find
  have h1 : (midState k vs).dataFile = logOf k vs := rfl
  rw [h1, findAux_logOf k vs hvs hsz 0 none]
  simp only [Nat.zero_add]
  rfl

/-! ### Claim theorems -/

set_option maxRecDepth 40000

/-- C1: for every byte-sequence key `k` (non-empty, not `+index`) and value
`v` (within the 32-bit length fields of the record format), after
`open; load; insert(k, v)` on a fresh store, `get(k)` returns `Some v`. -/
theorem C1_round_trip (k v : List Nat) (hne : k ≠ []) (hk : k ≠ INDEX_KEY)
    (hsz : k.length + v.length + 30 < 4294967296) :
    ActionKV.load initState = .ok () initState ∧
    ∃ s', ActionKV.get (ActionKV.insert initState k v) k =
      .ok (some v) s' := by
  constructor
  · unfold ActionKV.load
    rw [show initState.indexFile.drop initState.indexCursor = [] from rfl]
    rw [loadAux_eofErr (by rfl) _]
    rfl
  · rw [insert_initState k v hk]
    have hgl : ([v].getLast (by simp) : List Nat) = v := rfl
    have h := get_midState k [v] (by simp) (by omega)
      (by rw [hgl]; omega)
      (by norm_num [offLast, logOf_nil])
      (by omega)
    rwa [hgl] at h

/-- Witness for C1 at `k = [107]`, `v = [118]`. -/
theorem C1_round_trip_witness :
    ActionKV.load initState = .ok () initState ∧
    ∃ s', ActionKV.get (ActionKV.insert initState [107] [118]) [107] =
      .ok (some [118]) s' :=
  C1_round_trip [107] [118] (by decide) (by decide) (by norm_num)

/-- C3 counterexample: for `k = +index` (a key the claim quantifies over)
and the single-insert sequence `insert(+index, [120])`, `get(+index)`
returns `None`, not the final inserted value `[120]`. -/
theorem C3_counterexample :
    (ActionKV.get (insertList initState INDEX_KEY [[120]]) INDEX_KEY).val? =
      some none ∧
    some (none : Option (List Nat)) ≠ some (some ([120] : List Nat)) := by
  decide

/-- C3 (amended): for any key `k ≠ +index` and any nonempty sequence of
`insert(k, v_i)` calls on a fresh store (sizes within the record format),
`get(k)` returns the final value and `find(k)` returns the offset of the
last record together with that value. -/
theorem C3_last_write_wins (k : List Nat) (vs : List (List Nat))
    (hvs : vs ≠ []) (hk : k ≠ INDEX_KEY)
    (hsz : ∀ v ∈ vs, k.length + v.length < 4294967296)
    (hk30 : k.length + 30 < 4294967296)
    (hoff : offLast k vs < 18446744073709551616) :
    (∃ s', ActionKV.get (insertList initState k vs) k =
        .ok (some (vs.getLast hvs)) s') ∧
    ActionKV.find (insertList initState k vs) k =
      .ok (some (offLast k vs, vs.getLast hvs)) (midState k vs) := by
  obtain ⟨v, t, rfl⟩ : ∃ v t, vs = v :: t := by
    cases vs with
    | nil => cases hvs rfl
    | cons v t => exact ⟨v, t, rfl⟩
  rw [insertList_initState k v t hk]
  constructor
  · exact get_midState k (v :: t) hvs hk30
      (hsz _ (List.getLast_mem hvs)) hoff (by omega)
  · exact find_midState k (v :: t) hvs hsz

/-- Witness for C3 (amended) at `k = [107]`, `vs = [[1], [2]]`. -/
theorem C3_last_write_wins_witness :
    (∃ s', ActionKV.get (insertList initState [107] [[1], [2]]) [107] =
        .ok (some ([[1], [2]].getLast (by decide))) s') ∧
    ActionKV.find (insertList initState [107] [[1], [2]]) [107] =
      .ok (some (offLast [107] [[1], [2]], [[1], [2]].getLast (by decide)))
        (midState [107] [[1], [2]]) :=
  C3_last_write_wins [107] [[1], [2]] (by decide) (by decide) (by decide)
    (by norm_num) (by decide)

/-- C2 (the code evaluated at the failing input): after
`insert(foo, bar); delete(foo)` on a fresh store, `get(foo)` returns
`Some([])` — the empty tombstone value — rather than `None`, because
`delete`'s `index.remove` acts on the already-reset in-memory map while the
persisted sidecar index still binds `foo` to the tombstone record; `find(foo)`
does return the tombstone record (empty value) at offset 18. -/
theorem C2_delete_get :
    (ActionKV.get (ActionKV.delete
        (ActionKV.insert initState [102, 111, 111] [98, 97, 114])
        [102, 111, 111]) [102, 111, 111]).val? = some (some []) ∧
    (ActionKV.find (ActionKV.delete
        (ActionKV.insert initState [102, 111, 111] [98, 97, 114])
        [102, 111, 111]) [102, 111, 111]).val? = some (some (18, [])) ∧
    some (some ([] : List Nat)) ≠ some (none : Option (List Nat)) := by
  decide

/-- C4 counterexample: `insert(+index, [120])` completes normally (there is
no `ReservedKey` check in the source: the in-memory index afterwards is the
usual `+index ↦ 0` singleton), and a subsequent `find(+index)` returns the
mapping `(0, [120])` for the reserved key to the caller. -/
theorem C4_counterexample :
    (ActionKV.insert initState INDEX_KEY [120]).index = [(INDEX_KEY, 0)] ∧
    (ActionKV.find (ActionKV.insert initState INDEX_KEY [120])
        INDEX_KEY).val? = some (some (0, [120])) := by
  decide

/-- C4 (amended): `insert(+index, v)` succeeds — the source never rejects
the reserved key — and appends a `+index` record to the data log, which a
subsequent `find(+index)` returns; `get(+index)` still returns `None`,
because the sidecar index record is always serialized with `+index`
removed. -/
theorem C4_reserved_key_behavior (v : List Nat)
    (hv : v.length + 6 < 4294967296) :
    (ActionKV.find (ActionKV.insert initState INDEX_KEY v)
        INDEX_KEY).val? = some (some (0, v)) ∧
    (ActionKV.get (ActionKV.insert initState INDEX_KEY v)
        INDEX_KEY).val? = some none := by
  have hP : processRecords (encodeRecord INDEX_KEY v) =
      .ok ⟨INDEX_KEY, v⟩ [] := by
    conv_lhs => rw [← List.append_nil (encodeRecord INDEX_KEY v)]
    apply processRecords_append
    rw [INDEX_KEY_length]
    omega
  have hP2 : processRecords (encodeRecord INDEX_KEY (bincodeSer [])) =
      .ok ⟨INDEX_KEY, bincodeSer []⟩ [] := by
    conv_lhs => rw [← List.append_nil (encodeRecord INDEX_KEY (bincodeSer []))]
    apply processRecords_append
    rw [INDEX_KEY_length]
    norm_num [bincodeSer, bincodeSerEntries, w64]
  have hstate : ActionKV.insert initState INDEX_KEY v =
      { dataFile := encodeRecord INDEX_KEY v,
        dataCursor := (encodeRecord INDEX_KEY v).length,
        indexFile := encodeRecord INDEX_KEY (bincodeSer []),
        indexCursor := (encodeRecord INDEX_KEY (bincodeSer [])).length,
        index := [(INDEX_KEY, 0)] } := by
    rw [insert_eq]
    simp [mapInsert, mapRemove, writeAt, initState]
  have hdf : (ActionKV.insert initState INDEX_KEY v).dataFile =
      encodeRecord INDEX_KEY v := by rw [hstate]
  have hif : (ActionKV.insert initState INDEX_KEY v).indexFile =
      encodeRecord INDEX_KEY (bincodeSer []) := by rw [hstate]
  constructor
  · unfold ActionKV.find
    rw [hdf, findAux_ok hP, findAux_eofErr (by rfl)]
    simp [ActionKV.KVOut.val?]
  · rw [hstate]
    unfold ActionKV.get ActionKV.getStep2 ActionKV.get_at
    simp only [mapLookup, List.drop_zero, hP2, bincodeDeser_ser_nil,
      reduceIte]
    rfl

/-- Witness for C4 (amended) at `v = [121]`. -/
theorem C4_reserved_key_behavior_witness :
    (ActionKV.find (ActionKV.insert initState INDEX_KEY [121])
        INDEX_KEY).val? = some (some (0, [121])) ∧
    (ActionKV.get (ActionKV.insert initState INDEX_KEY [121])
        INDEX_KEY).val? = some none :=
  C4_reserved_key_behavior [121] (by norm_num)

/-- C6 (the code evaluated at the failing input): after
`insert(k24, "x"); insert("b", "y")` with a 24-byte key `k24`, the second
(shorter, 43-byte) index serialization only partially overwrites the first
(66-byte) one, so the sidecar index file does *not* hold exactly one
record — 23 stale bytes follow the new record — and a subsequent
`open; load` decodes the stale tail as a second record and halts on its CRC
mismatch instead of reproducing the index. -/
theorem C6_sidecar_stale_tail :
    (runOps initState [.ins (List.replicate 24 97) [120],
        .ins [98] [121]]).map
      (fun st => (holdsExactlyOneRecord st.indexFile,
                  (ActionKV.load (reopen st)).isHalted,
                  st.indexFile.length)) = some (false, true, 66) := by
  decide

/-- C7 counterexample: on the 13-byte stream whose header stores checksum 0
over the 1-byte payload `[65]` (whose CRC-32 is nonzero), `decode` halts the
process (the source's `panic!`) instead of returning a `Corruption` error
value to the caller. -/
theorem C7_counterexample :
    processRecords (w32 0 ++ w32 1 ++ w32 0 ++ [65]) = .halted := by
  decide

/-- C7 (amended): `decode` signals EOF at a record boundary and EOF inside
the 12-byte header with the *same* `UnexpectedEof` error (there is no
distinct `TruncatedRecord`), and on a checksum mismatch over the bytes
actually read it halts the process rather than returning `Corruption`. -/
theorem C7_decode_behavior :
    (∀ s : List Nat, s.length < 12 → processRecords s = .eofErr) ∧
    (∀ (chk kl vl : Nat) (payload : List Nat), kl < 4294967296 →
      vl < 4294967296 → chk < 4294967296 →
      payload.length = u32add kl vl → crc32 payload ≠ chk →
      processRecords (w32 chk ++ w32 kl ++ w32 vl ++ payload) = .halted) := by
  constructor
  · intro s hlen
    rcases s with _ | ⟨b0, s⟩
    · rfl
    rcases s with _ | ⟨b1, s⟩
    · rfl
    rcases s with _ | ⟨b2, s⟩
    · rfl
    rcases s with _ | ⟨b3, s⟩
    · rfl
    rcases s with _ | ⟨b4, s⟩
    · rfl
    rcases s with _ | ⟨b5, s⟩
    · rfl
    rcases s with _ | ⟨b6, s⟩
    · rfl
    rcases s with _ | ⟨b7, s⟩
    · rfl
    rcases s with _ | ⟨b8, s⟩
    · rfl
    rcases s with _ | ⟨b9, s⟩
    · rfl
    rcases s with _ | ⟨b10, s⟩
    · rfl
    rcases s with _ | ⟨b11, s⟩
    · rfl
    simp at hlen
    omega
  · intro chk kl vl payload h1 h2 h3 h4 h5
    unfold processRecords
    simp only [List.append_assoc, readU32_w32, Nat.mod_eq_of_lt h3,
      Nat.mod_eq_of_lt h1, Nat.mod_eq_of_lt h2]
    rw [List.take_of_length_le (le_of_eq h4)]
    rw [if_pos h5]

/-- Witness for C7 (amended): a 3-byte stream gives `UnexpectedEof`; a
mismatched checksum over payload `[66]` halts. -/
theorem C7_decode_behavior_witness :
    processRecords [0, 0, 0] = .eofErr ∧
    processRecords (w32 0 ++ w32 1 ++ w32 0 ++ [66]) = .halted :=
  ⟨C7_decode_behavior.1 [0, 0, 0] (by norm_num),
   C7_decode_behavior.2 0 1 0 [66] (by norm_num) (by norm_num) (by norm_num)
     (by decide) (by decide)⟩

/-- C8 counterexample: on the header `key_len = value_len = 2^31` the
source's 32-bit `key_len + value_len` wraps to 0 (it is not a 64-bit
addition), zero payload bytes are read, the empty-payload checksum happens
to match, and the decoder halts in `split_off` — there is no
`OversizedRecord` error. -/
theorem C8_counterexample :
    processRecords (w32 0 ++ w32 2147483648 ++ w32 2147483648) = .halted ∧
    u32add 2147483648 2147483648 ≠ 2147483648 + 2147483648 := by
  decide

/-- C8 (amended): `data_len` is computed as a 32-bit wrapping addition
(`u32add`); whenever `key_len + value_len ≥ 2^32` the computed `data_len`
differs from the mathematical sum, and when fewer than `key_len` payload
bytes are read the decoder halts (CRC panic or `split_off` out of range)
rather than failing with `OversizedRecord`. -/
theorem C8_u32_wrap (chk kl vl : Nat) (payload : List Nat)
    (h1 : kl < 4294967296) (h2 : vl < 4294967296) (h3 : chk < 4294967296)
    (hov : 4294967296 ≤ kl + vl)
    (hlen : payload.length = u32add kl vl)
    (hkl : u32add kl vl < kl) :
    u32add kl vl ≠ kl + vl ∧
    processRecords (w32 chk ++ w32 kl ++ w32 vl ++ payload) = .halted := by
  constructor
  · unfold u32add
    omega
  · unfold processRecords
    simp only [List.append_assoc, readU32_w32, Nat.mod_eq_of_lt h3,
      Nat.mod_eq_of_lt h1, Nat.mod_eq_of_lt h2]
    rw [List.take_of_length_le (le_of_eq hlen)]
    by_cases hc : crc32 payload ≠ chk
    · rw [if_pos hc]
    · rw [if_neg hc, if_pos (by rw [hlen]; exact hkl)]

/-- Witness for C8 (amended) at `key_len = value_len = 2^31`, checksum 7,
empty payload. -/
theorem C8_u32_wrap_witness :
    u32add 2147483648 2147483648 ≠ 2147483648 + 2147483648 ∧
    processRecords (w32 7 ++ w32 2147483648 ++ w32 2147483648 ++ []) =
      .halted :=
  C8_u32_wrap 7 2147483648 2147483648 [] (by norm_num) (by norm_num)
    (by norm_num) (by norm_num) (by decide) (by decide)

/-- C9: `encode(k, v)` produces exactly
`checksum_le32 || key_len_le32 || value_len_le32 || k || v` with
`checksum = CRC32_IEEE(k || v)`, and (for sizes within the 32-bit length
fields) `decode` of those bytes returns `(k, v)` exactly, consuming the
whole stream. -/
theorem C9_encode_decode (k v : List Nat)
    (h : k.length + v.length < 4294967296) :
    encodeRecord k v =
      w32 (crc32 (k ++ v)) ++ w32 k.length ++ w32 v.length ++ k ++ v ∧
    processRecords (encodeRecord k v) = .ok ⟨k, v⟩ [] := by
  refine ⟨rfl, ?_⟩
  conv_lhs => rw [← List.append_nil (encodeRecord k v)]
  exact processRecords_append _ _ _ h

/-- Witness for C9 at `k = [1]`, `v = [2, 3]`. -/
theorem C9_encode_decode_witness :
    encodeRecord [1] [2, 3] =
      w32 (crc32 ([1] ++ [2, 3])) ++ w32 (List.length [1]) ++
        w32 (List.length [2, 3]) ++ [1] ++ [2, 3] ∧
    processRecords (encodeRecord [1] [2, 3]) = .ok ⟨[1], [2, 3]⟩ [] :=
  C9_encode_decode [1] [2, 3] (by norm_num)

/-- C10 counterexample: `delete(+index)` succeeds and leaves the in-memory
index *empty* — not the singleton `+index ↦ 0` the claim asserts after
every successful mutation. -/
theorem C10_counterexample :
    (ActionKV.delete initState INDEX_KEY).index = [] ∧
    ([] : IndexMap) ≠ [(INDEX_KEY, 0)] := by
  decide

/-- C10 (amended): after every successful `insert` or `update`, and after
every successful `delete` of a key other than `+index`, the in-memory index
is exactly the singleton `+index ↦ 0` (offset 0 in the sidecar index file);
user-key mappings live only in the serialized sidecar record until the next
`get` or `load` repopulates the map. -/
theorem C10_index_reset (s : AKVState) (k v : List Nat) :
    (ActionKV.insert s k v).index = [(INDEX_KEY, 0)] ∧
    (ActionKV.update s k v).index = [(INDEX_KEY, 0)] ∧
    (k ≠ INDEX_KEY → (ActionKV.delete s k).index = [(INDEX_KEY, 0)]) := by
  refine ⟨rfl, rfl, fun hk => ?_⟩
  show mapRemove (ActionKV.insert s k []).index k = [(INDEX_KEY, 0)]
  rw [show (ActionKV.insert s k []).index = [(INDEX_KEY, 0)] from rfl]
  simp [mapRemove, Ne.symm hk]

/-- Witness for C10 (amended) at `s = initState`, `k = [107]`, `v = []`. -/
theorem C10_index_reset_witness :
    (ActionKV.insert initState [107] []).index = [(INDEX_KEY, 0)] ∧
    (ActionKV.delete initState [107]).index = [(INDEX_KEY, 0)] :=
  ⟨(C10_index_reset initState [107] []).1,
   (C10_index_reset initState [107] []).2.2 (by decide)⟩

theorem c5_serlen2 : (bincodeSer c5m2).length = 42 := by decide

theorem c5_serlen3 : (bincodeSer c5m3).length = 59 := by decide

theorem c5_hS1 : ActionKV.insert initState [107] [118] = c5S1 := by decide

theorem c5_hG1 : ActionKV.get c5S1 [107] = .ok (some [118]) c5S2 := by decide

theorem c5_recSer2 :
    processRecords (encodeRecord INDEX_KEY (bincodeSer c5m2)) =
      .ok ⟨INDEX_KEY, bincodeSer c5m2⟩ [] := by
  conv_lhs => rw [← List.append_nil (encodeRecord INDEX_KEY (bincodeSer c5m2))]
  apply processRecords_append
  rw [INDEX_KEY_length, c5_serlen2]
  norm_num

theorem c5_recSer3 :
    processRecords (encodeRecord INDEX_KEY (bincodeSer c5m3)) =
      .ok ⟨INDEX_KEY, bincodeSer c5m3⟩ [] := by
  conv_lhs => rw [← List.append_nil (encodeRecord INDEX_KEY (bincodeSer c5m3))]
  apply processRecords_append
  rw [INDEX_KEY_length, c5_serlen3]
  norm_num

theorem c5_hS3 : ActionKV.insert c5S2 [108] c5big = c5S3 := by
  rw [insert_eq]
  have hmem : mapRemove (mapInsert ([([107], 0)] : IndexMap) [108] 14)
      INDEX_KEY = c5m2 := by decide
  have hwr : writeAt (encodeRecord INDEX_KEY (bincodeSer [([107], 0)])) 0
      (encodeRecord INDEX_KEY (bincodeSer c5m2)) =
      encodeRecord INDEX_KEY (bincodeSer c5m2) := by
    apply writeAt_zero_of_le
    rw [encodeRecord_length, encodeRecord_length, INDEX_KEY_length,
      c5_serlen2, bincodeSer_singleton_length]
    norm_num
  have hlen60 : (encodeRecord INDEX_KEY (bincodeSer c5m2)).length = 60 := by
    rw [encodeRecord_length, INDEX_KEY_length, c5_serlen2]
  simp only [c5S2, c5S3, hmem, hwr, hlen60, encodeRecord_length]
  norm_num [c5big]

theorem c5_hG2 : ActionKV.get c5S3 [107] = .ok (some [118]) c5S4 := by
  have hdf3 : c5S3.dataFile.length = 9027 := by
    show (encodeRecord [107] [118] ++ encodeRecord [108] c5big).length = 9027
    rw [List.length_append, encodeRecord_length, encodeRecord_length]
    norm_num [c5big]
  have hif3 : c5S3.indexFile.length = 60 := by
    show (encodeRecord INDEX_KEY (bincodeSer c5m2)).length = 60
    rw [encodeRecord_length, INDEX_KEY_length, c5_serlen2]
  rw [get_ok c5S3 [107] 0 ⟨INDEX_KEY, bincodeSer c5m2⟩ [] c5m2 0
    ⟨[107], [118]⟩ (encodeRecord [108] c5big) (by decide) c5_recSer2
    (by decide) (by decide) ?h5]
  case h5 =>
    show processRecords
      (encodeRecord [107] [118] ++ encodeRecord [108] c5big) = _
    exact processRecords_append _ _ _ (by norm_num)
  rw [hdf3, hif3]
  simp only [c5S3, c5S4, Nat.min_def]
  norm_num

theorem c5_hif4 : (ActionKV.insert c5S4 [109] [119]).indexFile =
    encodeRecord INDEX_KEY (bincodeSer c5m3) := by
  rw [insert_eq]
  show writeAt (encodeRecord INDEX_KEY (bincodeSer c5m2)) 0
    (encodeRecord INDEX_KEY (bincodeSer
      (mapRemove (mapInsert c5m2 [109] 8192) INDEX_KEY))) = _
  rw [show mapRemove (mapInsert c5m2 [109] 8192) INDEX_KEY = c5m3 from
    by decide]
  apply writeAt_zero_of_le
  rw [encodeRecord_length, encodeRecord_length, INDEX_KEY_length,
    c5_serlen2, c5_serlen3]
  norm_num

theorem c5_final1 :
    sidecarLookup (ActionKV.insert c5S4 [109] [119]) [109] = some 8192 := by
  unfold sidecarLookup
  rw [c5_hif4, c5_recSer3]
  decide

theorem c5_final2 :
    processRecords ((ActionKV.insert c5S4 [109] [119]).dataFile.drop 9027) =
      .ok ⟨[109], [119]⟩ [] := by
  have hdf : (ActionKV.insert c5S4 [109] [119]).dataFile =
      (encodeRecord [107] [118] ++ encodeRecord [108] c5big) ++
        encodeRecord [109] [119] := rfl
  rw [hdf]
  rw [List.drop_left' (show (encodeRecord [107] [118] ++
      encodeRecord [108] c5big).length = 9027 from by
    rw [List.length_append, encodeRecord_length, encodeRecord_length]
    norm_num [c5big])]
  decide

theorem c5_runOps :
    runOps initState [.ins [107] [118], .getq [107],
      .ins [108] c5big, .getq [107]] = some c5S4 := by
  simp only [runOps, runOp, c5_hS1, c5_hG1, c5_hS3, c5_hG2,
    ActionKV.KVOut.st?]

/-- C5 (the code evaluated at the failing input): on the public call
sequence `insert([107], [118]); get([107]); insert([108], c5big);
get([107])` the data file is 9027 bytes long but the file cursor is left at
8192 by the second `get`'s buffered read-ahead; the next
`insert([109], [119])` then records offset 8192 for key `[109]` in the
persisted index — `insert_` stores `seek(SeekFrom::Current(0))`, the stale
cursor position — although its record is actually appended at end-of-file
offset 9027. -/
theorem C5_offset_from_stale_cursor :
    ∃ s : AKVState,
      runOps initState [.ins [107] [118], .getq [107],
          .ins [108] c5big, .getq [107]] = some s ∧
      s.dataFile.length = 9027 ∧
      s.dataCursor = 8192 ∧
      sidecarLookup (ActionKV.insert s [109] [119]) [109] = some 8192 ∧
      processRecords ((ActionKV.insert s [109] [119]).dataFile.drop 9027) =
        .ok ⟨[109], [119]⟩ [] := by
  refine ⟨c5S4, c5_runOps, ?_, rfl, c5_final1, c5_final2⟩
  show (encodeRecord [107] [118] ++ encodeRecord [108] c5big).length = 9027
  rw [List.length_append, encodeRecord_length, encodeRecord_length]
  norm_num [c5big]
